import Mathlib

/-!
Verification of the onion-clustering time-series analysis engine
(`main.py` and `src/onion_clustering/functions.py`).

Shallow embedding conventions:
* floating-point scalars are modelled as elements of a linear ordered field
  `α` (instantiated with `ℚ` for concrete computations and with `ℝ` for the
  functions that use `exp`, `log`, `sqrt`);
* the signal matrix is a `List (List α)` (entities × frames) and the label
  matrix a `List (List ℕ)` (entities × windows) — labels are stored by the
  source as integer-valued floats, and the unclassified test
  `all_the_labels < 0.5` is modelled as equality with `0`;
* numpy array indexing is modelled with `List.getD`, with the source's
  in-bounds usage captured by explicit bound hypotheses in the theorems;
* external numerical routines (`scipy.optimize.curve_fit`, `scipy.integrate.quad`)
  are modelled as oracle parameters: the pure decision logic that consumes
  their outputs is embedded exactly.
-/

/-- The per-state record of the source (`StateUni` of `first_classes.py`,
a file that is not part of the sources here; its fields are reconstructed
from every access made by `main.py` and `functions.py`): Gaussian mean,
sigma and area, peak density, relevance fraction `perc`, and the two
threshold pairs `(value, type)`. -/
structure StateUni (α : Type) where
  mean : α
  sigma : α
  area : α
  peak : α
  perc : α
  th_inf : α × ℤ
  th_sup : α × ℤ
  deriving DecidableEq

instance (α : Type) [Zero α] : Inhabited (StateUni α) :=
  ⟨⟨0, 0, 0, 0, 0, (0, 0), (0, 0)⟩⟩

theorem getD_mem_of_lt {β : Type} (s : List β) (i : ℕ) (d : β) (h : i < s.length) :
    s.getD i d ∈ s := by
  rw [List.getD_eq_getElem?_getD, List.getElem?_eq_getElem h, Option.getD_some]
  exact List.getElem_mem h

section Classifier

variable {α : Type} [LinearOrderedField α]

/-- The frames of window `j` of entity `i`:
`m_clean[i, j*tau_window : (j+1)*tau_window]`. -/
def window_slice (m : List (List α)) (tau i j : ℕ) : List α :=
  ((m.getD i []).drop (j * tau)).take tau

/-- One cell of a label matrix (`all_the_labels[i][j]`). -/
def label_cell (labels : List (List ℕ)) (i j : ℕ) : ℕ :=
  (labels.getD i []).getD j 0

/-- The window-level stability test of `find_stable_trj` (`main.py`):
`np.min(window) >= state.th_inf[0]` and `np.max(window) <= state.th_sup[0]`.
An empty window (impossible in the source, where `np.min` would fail)
is treated as not stable. -/
def stable_window (st : StateUni α) (w : List α) : Bool :=
  match w.min?, w.max? with
  | some mn, some mx => decide (st.th_inf.1 ≤ mn) && decide (mx ≤ st.th_sup.1)
  | _, _ => false

/-- The combined mask of `find_stable_trj`:
`mask_unclassified & mask_inf & mask_sup`. -/
def stable_mask (m : List (List α)) (tau : ℕ) (st : StateUni α)
    (labels : List (List ℕ)) (i j : ℕ) : Bool :=
  decide (label_cell labels i j = 0) && stable_window st (window_slice m tau i j)

/-- `np.sum(mask)`: the number of newly classified windows. -/
def stable_count (m : List (List α)) (tau : ℕ) (st : StateUni α)
    (labels : List (List ℕ)) : ℕ :=
  ((List.range labels.length).map fun i =>
    ((List.range (labels.getD i []).length).map fun j =>
      if stable_mask m tau st labels i j then 1 else 0).sum).sum

/-- `all_the_labels.size`: the total number of label cells. -/
def total_cells (labels : List (List ℕ)) : ℕ :=
  (labels.map List.length).sum

/-- The Window Stability Classifier `find_stable_trj` of `main.py`.
Returns the updated label matrix (`all_the_labels` after the in-place
assignment `all_the_labels[mask] = offset + 1`), the still-unclassified
windows collected as rows (`m2_array`), the fraction of windows newly
classified (`window_fraction`), and the `one_last_state` flag. -/
def find_stable_trj (m : List (List α)) (tau : ℕ) (st : StateUni α)
    (labels : List (List ℕ)) (offset : ℕ) :
    List (List ℕ) × List (List α) × α × Bool :=
  let newLabels := (List.range labels.length).map fun i =>
    (List.range (labels.getD i []).length).map fun j =>
      if stable_mask m tau st labels i j then offset + 1 else label_cell labels i j
  let remaining := (List.range labels.length).flatMap fun i =>
    (List.range (labels.getD i []).length).filterMap fun j =>
      if label_cell labels i j = 0 ∧ stable_mask m tau st labels i j = false
      then some (window_slice m tau i j) else none
  let frac : α := (stable_count m tau st labels : α) / (total_cells labels : α)
  (newLabels, remaining, frac, !remaining.isEmpty)

theorem label_cell_out_of_range (labels : List (List ℕ)) (i j : ℕ)
    (h : ¬ (i < labels.length ∧ j < (labels.getD i []).length)) :
    label_cell labels i j = 0 := by
  unfold label_cell
  rcases Nat.lt_or_ge i labels.length with hi | hi
  · rcases Nat.lt_or_ge j (labels.getD i []).length with hj | hj
    · exact absurd ⟨hi, hj⟩ h
    · exact List.getD_eq_default _ _ hj
  · rw [List.getD_eq_default _ _ hi]
    simp [List.getD]

theorem label_cell_find_stable (m : List (List α)) (tau : ℕ) (st : StateUni α)
    (labels : List (List ℕ)) (offset : ℕ) (i j : ℕ)
    (hi : i < labels.length) (hj : j < (labels.getD i []).length) :
    label_cell (find_stable_trj m tau st labels offset).1 i j
      = if stable_mask m tau st labels i j then offset + 1
        else label_cell labels i j := by
  unfold find_stable_trj label_cell
  rw [List.getD_eq_getElem?_getD labels i] at hj
  simp only [List.getD_eq_getElem?_getD, List.getElem?_map, List.getElem?_range hi,
    Option.map_some', Option.getD_some, List.getElem?_range hj]

/-- C1: a window is marked stable (its label becomes `offset + 1`) if and only
if its current label is `0` and the window minimum is at least `th_inf` and
the window maximum is at most `th_sup`; whenever the minimum lies below
`th_inf` or the maximum above `th_sup` the label is left unchanged (the mean
of the window plays no role). -/
theorem find_stable_trj_marks_iff (m : List (List α)) (tau : ℕ) (st : StateUni α)
    (labels : List (List ℕ)) (offset : ℕ) (i j : ℕ)
    (hi : i < labels.length) (hj : j < (labels.getD i []).length)
    (hold : label_cell labels i j ≤ offset) (mn mx : α)
    (hmn : (window_slice m tau i j).min? = some mn)
    (hmx : (window_slice m tau i j).max? = some mx) :
    (label_cell (find_stable_trj m tau st labels offset).1 i j = offset + 1
      ↔ label_cell labels i j = 0 ∧ st.th_inf.1 ≤ mn ∧ mx ≤ st.th_sup.1)
    ∧ ((mn < st.th_inf.1 ∨ st.th_sup.1 < mx) →
      label_cell (find_stable_trj m tau st labels offset).1 i j
        = label_cell labels i j) := by
  rw [label_cell_find_stable m tau st labels offset i j hi hj]
  have hC : stable_mask m tau st labels i j = true
      ↔ (label_cell labels i j = 0 ∧ st.th_inf.1 ≤ mn ∧ mx ≤ st.th_sup.1) := by
    unfold stable_mask stable_window
    rw [hmn, hmx]
    simp
  constructor
  · constructor
    · intro h
      by_cases hcond : stable_mask m tau st labels i j = true
      · exact hC.mp hcond
      · rw [if_neg hcond] at h
        omega
    · intro hconj
      rw [if_pos (hC.mpr hconj)]
  · intro hout
    have hcond : ¬ stable_mask m tau st labels i j = true := by
      intro hc
      rcases hC.mp hc with ⟨-, h1, h2⟩
      rcases hout with h | h
      · exact absurd h1 (not_le.mpr h)
      · exact absurd h2 (not_le.mpr h)
    rw [if_neg hcond]

/-- C1 witness: a concrete instantiation of `find_stable_trj_marks_iff` over
`ℚ`, with a single entity, two windows of one frame each, and a state whose
bounds contain the first window. -/
theorem find_stable_trj_marks_iff_witness :
    (label_cell (find_stable_trj [[(1 : ℚ), 5]] 1
        ⟨1, 1, 1, 1, 0, (0, 1), (2, 1)⟩ [[0, 0]] 0).1 0 0 = 0 + 1
      ↔ label_cell [[0, 0]] 0 0 = 0 ∧ (0 : ℚ) ≤ 1 ∧ (1 : ℚ) ≤ 2) := by
  have h := find_stable_trj_marks_iff (α := ℚ) [[1, 5]] 1
    ⟨1, 1, 1, 1, 0, (0, 1), (2, 1)⟩ [[0, 0]] 0 0 0
    (by decide) (by decide) (by decide) 1 1 (by decide) (by decide)
  exact h.1

/-- C8: the Window Stability Classifier never changes a label cell that is
already nonzero; in particular it never resets it to `0`. -/
theorem find_stable_trj_preserves_nonzero (m : List (List α)) (tau : ℕ)
    (st : StateUni α) (labels : List (List ℕ)) (offset : ℕ) (i j : ℕ)
    (h : label_cell labels i j ≠ 0) :
    label_cell (find_stable_trj m tau st labels offset).1 i j
      = label_cell labels i j := by
  have hrange : i < labels.length ∧ j < (labels.getD i []).length := by
    by_contra hc
    exact h (label_cell_out_of_range labels i j hc)
  rw [label_cell_find_stable m tau st labels offset i j hrange.1 hrange.2]
  unfold stable_mask
  simp [h]

/-- C8 witness: a concrete nonzero cell over `ℚ` is untouched. -/
theorem find_stable_trj_preserves_nonzero_witness :
    label_cell (find_stable_trj [[(1 : ℚ), 5]] 1
        ⟨1, 1, 1, 1, 0, (0, 1), (2, 1)⟩ [[2, 0]] 2).1 0 0
      = label_cell [[2, 0]] 0 0 :=
  find_stable_trj_preserves_nonzero [[(1 : ℚ), 5]] 1
    ⟨1, 1, 1, 1, 0, (0, 1), (2, 1)⟩ [[2, 0]] 2 0 0 (by decide)

end Classifier

section GoodnessScore

/-- The goodness computation of `perform_gaussian_fit` (`main.py`) on a
convergent fit attempt. The call to `scipy.optimize.curve_fit` and the
extraction `perr = np.sqrt(np.diag(pcov))` are external numerical routines:
their outputs `popt` (mean, sigma, area) and `perr` (the three standard
errors) are taken as parameters, and every step the source performs on them
is embedded: the sign flip of sigma/area when the fitted sigma is negative,
the comparison of `popt[2]*sqrt(pi)*popt[1]` with half the naive area
estimate, the rescaling `popt[2] *= n_data` before the relative-error loop,
and the five deduction sites, the relative-error site deducting once per
parameter. -/
noncomputable def goodness_score (id0 id1 max_ind gap : ℕ)
    (bins counts : List ℝ) (n_data : ℕ) (popt perr : ℝ × ℝ × ℝ) : ℤ :=
  let sb := (bins.drop id0).take (id1 - id0)
  let sigma0 := (bins.getD id0 0 - bins.getD id1 0) / 6
  let area0 := counts.getD max_ind 0 * Real.sqrt Real.pi * sigma0
  let p1 := if popt.2.1 < 0 then -popt.2.1 else popt.2.1
  let p2 := if popt.2.1 < 0 then -popt.2.2 else popt.2.2
  let gauss_max := p2 * Real.sqrt Real.pi * p1
  let p2n := p2 * (n_data : ℝ)
  let d1 : ℤ := if gauss_max < area0 / 2 then 1 else 0
  let d2 : ℤ := if popt.1 < sb.headD 0 ∨ popt.1 > sb.getLastD 0 then 1 else 0
  let d3 : ℤ := if p1 > sb.getLastD 0 - sb.headD 0 then 1 else 0
  let d4 : ℤ := (if perr.1 / popt.1 > 0.5 then 1 else 0)
    + (if perr.2.1 / p1 > 0.5 then 1 else 0)
    + (if perr.2.2 / p2n > 0.5 then 1 else 0)
  let d5 : ℤ := if id1 - id0 ≤ gap then 1 else 0
  5 - d1 - d2 - d3 - d4 - d5

/-- C2 counterexample: a convergent fit attempt (a histogram with its peak
in the first bin, so the minima walk gives `id0 = 0`, `id1 = 1` and the
interval condition `id1 - id0 <= gap` fires with `gap = 1`; increasing bin
edges, nonnegative counts, nonnegative standard errors) on which the area,
mean, sigma and interval conditions fire and two of the three parameters
have relative standard error above one half, giving goodness `-1`, outside
the claimed range `[0, 5]`. -/
theorem goodness_score_counterexample :
    goodness_score 0 1 0 1 [0, 1, 2] [1, 0] 1 (5, 2, -1) (10, 10, 5) = -1 := by
  have hpi : (0 : ℝ) < Real.sqrt Real.pi := Real.sqrt_pos.mpr Real.pi_pos
  have h1 : -(Real.sqrt Real.pi * 2) < -(Real.sqrt Real.pi * (1 / 6)) / 2 := by
    nlinarith
  simp only [goodness_score]
  norm_num [h1]

/-- C2 amended: on every convergent fit attempt the goodness is an integer
in the range `[-2, 5]` (five deduction sites, the relative-error site worth
up to three points). -/
theorem goodness_score_bounds (id0 id1 max_ind gap : ℕ)
    (bins counts : List ℝ) (n_data : ℕ) (popt perr : ℝ × ℝ × ℝ) :
    -2 ≤ goodness_score id0 id1 max_ind gap bins counts n_data popt perr ∧
      goodness_score id0 id1 max_ind gap bins counts n_data popt perr ≤ 5 := by
  simp only [goodness_score]
  split_ifs <;> omega

end GoodnessScore

section Intersection

/-- The Gaussian density of `functions.py`:
`exp(-((x - x_mean)/sigma)**2) * area / (sqrt(pi)*sigma)`. -/
noncomputable def gaussian (x x_mean sigma area : ℝ) : ℝ :=
  Real.exp (-(((x - x_mean) / sigma) ^ 2)) * area / (Real.sqrt Real.pi * sigma)

/-- `coeff_a` of `find_intersection`. -/
noncomputable def fi_coeff_a (st_0 st_1 : StateUni ℝ) : ℝ :=
  st_1.sigma ^ 2 - st_0.sigma ^ 2

/-- `coeff_b` of `find_intersection`. -/
noncomputable def fi_coeff_b (st_0 st_1 : StateUni ℝ) : ℝ :=
  -2 * (st_0.mean * st_1.sigma ^ 2 - st_1.mean * st_0.sigma ^ 2)

/-- `coeff_c` of `find_intersection`, with `tmp_c` inlined. -/
noncomputable def fi_coeff_c (st_0 st_1 : StateUni ℝ) : ℝ :=
  (st_0.mean * st_1.sigma) ^ 2 - (st_1.mean * st_0.sigma) ^ 2
    - ((st_0.sigma * st_1.sigma) ^ 2)
      * Real.log (st_0.area * st_1.sigma / st_1.area / st_0.sigma)

/-- The discriminant `delta` of `find_intersection`. -/
noncomputable def fi_delta (st_0 st_1 : StateUni ℝ) : ℝ :=
  fi_coeff_b st_0 st_1 ^ 2 - 4 * fi_coeff_a st_0 st_1 * fi_coeff_c st_0 st_1

/-- The larger quadratic root `th_plus` of `find_intersection`. -/
noncomputable def fi_th_plus (st_0 st_1 : StateUni ℝ) : ℝ :=
  (-fi_coeff_b st_0 st_1 + Real.sqrt (fi_delta st_0 st_1)) / (2 * fi_coeff_a st_0 st_1)

/-- The other quadratic root `th_minus` of `find_intersection`. -/
noncomputable def fi_th_minus (st_0 st_1 : StateUni ℝ) : ℝ :=
  (-fi_coeff_b st_0 st_1 - Real.sqrt (fi_delta st_0 st_1)) / (2 * fi_coeff_a st_0 st_1)

/-- The Threshold/Intersection Solver `find_intersection` of `functions.py`,
for two states ordered by mean. -/
noncomputable def find_intersection (st_0 st_1 : StateUni ℝ) : ℝ × ℤ :=
  if fi_coeff_a st_0 st_1 = 0 then
    ((st_0.mean + st_1.mean) / 2 -
      st_0.sigma ^ 2 / 2 / (st_1.mean - st_0.mean) * Real.log (st_0.area / st_1.area), 1)
  else if 0 ≤ fi_delta st_0 st_1 then
    if gaussian (fi_th_minus st_0 st_1) st_0.mean st_0.sigma st_0.area ≤
        gaussian (fi_th_plus st_0 st_1) st_0.mean st_0.sigma st_0.area
    then (fi_th_plus st_0 st_1, 1) else (fi_th_minus st_0 st_1, 1)
  else
    ((st_0.mean / st_0.sigma + st_1.mean / st_1.sigma) /
      (1 / st_0.sigma + 1 / st_1.sigma), 2)

/-- The different-sigma, nonnegative-discriminant branch behaves as the spec
describes: the solver returns the quadratic root at which state 0's Gaussian
density is the higher of the two, with type 1. -/
theorem find_intersection_pos_delta (st_0 st_1 : StateUni ℝ)
    (ha : fi_coeff_a st_0 st_1 ≠ 0) (hd : 0 ≤ fi_delta st_0 st_1) :
    (find_intersection st_0 st_1).2 = 1
    ∧ ((find_intersection st_0 st_1).1 = fi_th_plus st_0 st_1
        ∨ (find_intersection st_0 st_1).1 = fi_th_minus st_0 st_1)
    ∧ gaussian (fi_th_plus st_0 st_1) st_0.mean st_0.sigma st_0.area
        ⊔ gaussian (fi_th_minus st_0 st_1) st_0.mean st_0.sigma st_0.area
      = gaussian (find_intersection st_0 st_1).1 st_0.mean st_0.sigma st_0.area := by
  unfold find_intersection
  rw [if_neg ha, if_pos hd]
  by_cases hcmp : gaussian (fi_th_minus st_0 st_1) st_0.mean st_0.sigma st_0.area ≤
      gaussian (fi_th_plus st_0 st_1) st_0.mean st_0.sigma st_0.area
  · rw [if_pos hcmp]
    exact ⟨rfl, Or.inl rfl, sup_eq_left.mpr hcmp⟩
  · rw [if_neg hcmp]
    exact ⟨rfl, Or.inr rfl, sup_eq_right.mpr (le_of_not_le hcmp)⟩

/-- The negative-discriminant branch behaves as the spec describes: the
solver falls back to the average of the two means weighted by the inverse
sigmas, with type 2. -/
theorem find_intersection_neg_delta (st_0 st_1 : StateUni ℝ)
    (ha : fi_coeff_a st_0 st_1 ≠ 0) (hd : fi_delta st_0 st_1 < 0) :
    find_intersection st_0 st_1
      = ((st_0.mean / st_0.sigma + st_1.mean / st_1.sigma) /
          (1 / st_0.sigma + 1 / st_1.sigma), 2) := by
  unfold find_intersection
  rw [if_neg ha, if_neg (not_le.mpr hd)]

/-- A pair of equal-sigma states on which the equal-sigma branch of
`find_intersection` is exercised: means `0` and `1`, common sigma `1`,
areas `e^2` and `1`. -/
noncomputable def eqsig_st0 : StateUni ℝ := ⟨0, 1, Real.exp 2, 0, 0, (0, 0), (0, 0)⟩

/-- The second state of the equal-sigma pair. -/
noncomputable def eqsig_st1 : StateUni ℝ := ⟨1, 1, 1, 0, 0, (0, 0), (0, 0)⟩

/-- C4: on the equal-sigma pair with areas `e^2` and `1` the solver returns
the threshold `-1/2` with type 1, but the two Gaussian densities are not
equal at `-1/2`; their unique intersection lies at `3/2` (the sign of the
log term in the closed-form formula is flipped in the code). -/
theorem find_intersection_equal_sigma_sign_bug :
    find_intersection eqsig_st0 eqsig_st1 = (-(1 / 2 : ℝ), 1)
    ∧ gaussian (-(1 / 2)) eqsig_st0.mean eqsig_st0.sigma eqsig_st0.area
      ≠ gaussian (-(1 / 2)) eqsig_st1.mean eqsig_st1.sigma eqsig_st1.area
    ∧ gaussian (3 / 2) eqsig_st0.mean eqsig_st0.sigma eqsig_st0.area
      = gaussian (3 / 2) eqsig_st1.mean eqsig_st1.sigma eqsig_st1.area := by
  have hπ : (0 : ℝ) < Real.sqrt Real.pi := Real.sqrt_pos.mpr Real.pi_pos
  refine ⟨?_, ?_, ?_⟩
  · simp only [find_intersection, fi_coeff_a, eqsig_st0, eqsig_st1]
    norm_num [Real.log_exp]
  · simp only [gaussian, eqsig_st0, eqsig_st1]
    norm_num
    intro h
    rw [div_eq_div_iff (by positivity) (by positivity)] at h
    have h2 : Real.exp (-(1 / 4) : ℝ) * Real.exp 2 = Real.exp (-(9 / 4) : ℝ) :=
      mul_right_cancel₀ (ne_of_gt hπ) h
    rw [← Real.exp_add] at h2
    have := Real.exp_injective h2
    norm_num at this
  · simp only [gaussian, eqsig_st0, eqsig_st1]
    norm_num
    rw [div_eq_div_iff (by positivity) (by positivity), ← Real.exp_add]
    norm_num

end Intersection

section FinalSettings

/-- `np.sum(all_the_labels == v)`: the number of label cells equal to `v`. -/
def count_label (labels : List (List ℕ)) (v : ℕ) : ℕ :=
  (labels.map (List.count v)).sum

/-- The final threshold computation `final_state_settings` of `functions.py`:
recompute each state's relevance fraction from the label matrix, set the
first state's lower threshold to the global data minimum with type 0, give
each adjacent pair the same intersection threshold value and type, and set
the last state's upper threshold to the global data maximum with type 0.
The imperative in-place loop of the source reads only the `mean`, `sigma`
and `area` fields, which it never writes, so it is embedded as an
index-wise construction of the output list. -/
noncomputable def final_state_settings (states : List (StateUni ℝ))
    (labels : List (List ℕ)) (m_range : ℝ × ℝ) : List (StateUni ℝ) :=
  (List.range states.length).map fun i =>
    { states.getD i default with
      perc := (count_label labels (i + 1) : ℝ) / (total_cells labels : ℝ)
      th_inf := if i = 0 then (m_range.1, 0)
        else find_intersection (states.getD (i - 1) default) (states.getD i default)
      th_sup := if i = states.length - 1 then (m_range.2, 0)
        else find_intersection (states.getD i default) (states.getD (i + 1) default) }

theorem final_state_settings_getD (states : List (StateUni ℝ))
    (labels : List (List ℕ)) (m_range : ℝ × ℝ) (i : ℕ) (hi : i < states.length) :
    (final_state_settings states labels m_range).getD i default
      = { states.getD i default with
          perc := (count_label labels (i + 1) : ℝ) / (total_cells labels : ℝ)
          th_inf := if i = 0 then (m_range.1, 0)
            else find_intersection (states.getD (i - 1) default) (states.getD i default)
          th_sup := if i = states.length - 1 then (m_range.2, 0)
            else find_intersection (states.getD i default)
              (states.getD (i + 1) default) } := by
  unfold final_state_settings
  simp only [List.getD_eq_getElem?_getD, List.getElem?_map, List.getElem?_range hi,
    Option.map_some', Option.getD_some]

theorem final_state_settings_length (states : List (StateUni ℝ))
    (labels : List (List ℕ)) (m_range : ℝ × ℝ) :
    (final_state_settings states labels m_range).length = states.length := by
  unfold final_state_settings
  rw [List.length_map, List.length_range]

/-- C3: after the final threshold computation, every adjacent pair of states
shares threshold value and type (`state[i].th_sup = state[i+1].th_inf`), the
first state's lower threshold is the global data minimum with type 0, and
the last state's upper threshold is the global data maximum with type 0. -/
theorem final_state_settings_thresholds (states : List (StateUni ℝ))
    (labels : List (List ℕ)) (m_range : ℝ × ℝ) (h : states ≠ []) :
    (∀ i, i + 1 < (final_state_settings states labels m_range).length →
      ((final_state_settings states labels m_range).getD i default).th_sup
        = ((final_state_settings states labels m_range).getD (i + 1) default).th_inf)
    ∧ ((final_state_settings states labels m_range).getD 0 default).th_inf
        = (m_range.1, 0)
    ∧ ((final_state_settings states labels m_range).getD
          ((final_state_settings states labels m_range).length - 1) default).th_sup
        = (m_range.2, 0) := by
  have hn : 0 < states.length := List.length_pos.mpr h
  rw [final_state_settings_length]
  refine ⟨?_, ?_, ?_⟩
  · intro i hilen
    rw [final_state_settings_getD states labels m_range i (by omega),
      final_state_settings_getD states labels m_range (i + 1) (by omega)]
    have h1 : ¬ i = states.length - 1 := by omega
    have h2 : ¬ i + 1 = 0 := by omega
    simp only [h1, h2, if_false, Nat.add_sub_cancel]
  · rw [final_state_settings_getD states labels m_range 0 hn]
    simp
  · rw [final_state_settings_getD states labels m_range (states.length - 1) (by omega)]
    simp

/-- C3 witness: the adjacent-pair and boundary-threshold properties at a
concrete two-state list. -/
theorem final_state_settings_thresholds_witness :
    ((final_state_settings [⟨0, 1, 1, 0, 0, (0, 0), (0, 0)⟩,
        ⟨5, 1, 1, 0, 0, (0, 0), (0, 0)⟩] [[1, 2]] (-3, 7)).getD 0 default).th_inf
      = ((-3 : ℝ), 0) :=
  (final_state_settings_thresholds [⟨0, 1, 1, 0, 0, (0, 0), (0, 0)⟩,
    ⟨5, 1, 1, 0, 0, (0, 0), (0, 0)⟩] [[1, 2]] (-3, 7) (by simp)).2.1

end FinalSettings

section Merger

/-- Direction of a proposed merge for an ordered state pair `(i, j)`, `i < j`:
`sndIntoFst` is the source's `[j, i]` (merge state `j` into state `i`) and
`fstIntoSnd` is `[i, j]`. -/
inductive MergeDir where
  | sndIntoFst : MergeDir
  | fstIntoSnd : MergeDir
  deriving DecidableEq

/-- The per-pair decision of the Overlap-Based Merger (`set_final_states`,
`functions.py`). `shared1` is the fraction of state `st_1`'s probability
mass shared with `st_0` and `shared2` the fraction of `st_0`'s mass shared
with `st_1`, exactly as produced by the call
`shared_area_between_gaussians(st_1.area, ..., st_0.area, ...)`; the
numerical quadrature that produces them is external, and the `elif` chain
that consumes them is embedded verbatim. -/
noncomputable def pair_merge_decision (shared1 shared2 : ℝ)
    (st_0 st_1 : StateUni ℝ) (thresh : ℝ) : Option MergeDir :=
  if shared1 > thresh ∧ shared2 ≤ thresh then some .sndIntoFst
  else if shared2 > thresh ∧ shared1 ≤ thresh then some .fstIntoSnd
  else if shared1 > thresh ∧ shared2 > thresh then
    some (if shared1 > shared2 then .sndIntoFst else .fstIntoSnd)
  else if st_0.peak > st_1.peak ∧ |st_0.mean - st_1.mean| < st_0.sigma / Real.sqrt 2
      ∧ st_1.sigma < 2 * st_0.sigma then some .sndIntoFst
  else if st_1.peak > st_0.peak ∧ |st_0.mean - st_1.mean| < st_1.sigma / Real.sqrt 2
      ∧ st_0.sigma < 2 * st_1.sigma then some .fstIntoSnd
  else none

/-- The list of proposed merges over all ordered pairs `(i, j)`, `i < j`,
in the source's iteration order. -/
noncomputable def proposed_merges (shared : StateUni ℝ → StateUni ℝ → ℝ × ℝ)
    (states : List (StateUni ℝ)) (thresh : ℝ) : List (ℕ × ℕ) :=
  (List.range states.length).flatMap fun i =>
    (List.range states.length).filterMap fun j =>
      if i < j then
        (pair_merge_decision
          (shared (states.getD j default) (states.getD i default)).1
          (shared (states.getD j default) (states.getD i default)).2
          (states.getD i default) (states.getD j default) thresh).map
            (fun d => match d with
              | .sndIntoFst => (j, i)
              | .fstIntoSnd => (i, j))
      else none

/-- Modelled from the spec (refinement target for C5, following §4.7's words):
if only one shared fraction exceeds τ, merge the state with the exceeding
fraction into the other; if both exceed τ, merge the state with the larger
fraction into the other (a tie is left unspecified by the spec and mapped
to `none` here); otherwise apply the secondary peak/mean-proximity rule. -/
noncomputable def spec_merge_decision (shared1 shared2 : ℝ)
    (st_0 st_1 : StateUni ℝ) (tau : ℝ) : Option MergeDir :=
  if shared1 > tau ∧ ¬ shared2 > tau then some .sndIntoFst
  else if shared2 > tau ∧ ¬ shared1 > tau then some .fstIntoSnd
  else if shared1 > tau ∧ shared2 > tau then
    if shared1 > shared2 then some .sndIntoFst
    else if shared2 > shared1 then some .fstIntoSnd
    else none
  else if st_0.peak > st_1.peak ∧ |st_0.mean - st_1.mean| < st_0.sigma / Real.sqrt 2
      ∧ st_1.sigma < 2 * st_0.sigma then some .sndIntoFst
  else if st_1.peak > st_0.peak ∧ |st_0.mean - st_1.mean| < st_1.sigma / Real.sqrt 2
      ∧ st_0.sigma < 2 * st_1.sigma then some .fstIntoSnd
  else none

/-- C5: for every examined pair, whenever the two shared fractions are not
exactly tied, the merger's decision agrees with the spec's description: one
exceeding fraction merges the exceeding state into the other, two exceeding
fractions merge the state with the larger fraction, and the secondary
peak/mean-proximity rule fires only when neither fraction exceeds τ. -/
theorem pair_merge_decision_follows_spec (shared1 shared2 : ℝ)
    (st_0 st_1 : StateUni ℝ) (thresh : ℝ) (hne : shared1 ≠ shared2) :
    pair_merge_decision shared1 shared2 st_0 st_1 thresh
      = spec_merge_decision shared1 shared2 st_0 st_1 thresh := by
  unfold pair_merge_decision spec_merge_decision
  have htri : shared2 < shared1 ∨ shared1 < shared2 := lt_or_gt_of_ne hne.symm
  rcases htri with h | h <;> split_ifs <;> simp_all <;> linarith

/-- C5 witness: at a concrete input where only the first fraction exceeds
the threshold, the merger's decision equals the spec's decision. -/
theorem pair_merge_decision_follows_spec_witness :
    pair_merge_decision (4 / 5) (3 / 10)
        ⟨0, 1, 1, 1, 0, (0, 0), (0, 0)⟩ ⟨5, 1, 1, 1, 0, (0, 0), (0, 0)⟩ (1 / 2)
      = spec_merge_decision (4 / 5) (3 / 10)
        ⟨0, 1, 1, 1, 0, (0, 0), (0, 0)⟩ ⟨5, 1, 1, 1, 0, (0, 0), (0, 0)⟩ (1 / 2) :=
  pair_merge_decision_follows_spec (4 / 5) (3 / 10)
    ⟨0, 1, 1, 1, 0, (0, 0), (0, 0)⟩ ⟨5, 1, 1, 1, 0, (0, 0), (0, 0)⟩ (1 / 2)
    (by norm_num)

end Merger

section Relabel

variable {α : Type} [LinearOrderedField α]

/-- The `relabel_map` array of `relabel_states` (`functions.py`) as a
function: given the original indices of the surviving states in their new
(mean-sorted) order, map old label `o + 1` to `rank + 1` where `rank` is the
position of original index `o` in that order, and everything else to `0`
(the array is initialised with zeros). The source recovers the original
index of a state with `states_list.index(state)`, which under Python's
identity-based object equality is exactly the state's original position, so
the embedding carries each state's original index alongside it. -/
def relabel_map : List ℕ → ℕ → ℕ → ℕ
  | [], _, _ => 0
  | o :: rest, r, l => if l = o + 1 then r + 1 else relabel_map rest (r + 1) l

/-- Step 1 and 2 of `relabel_states`: drop the states with zero relevance
and sort the survivors by mean (Python's `list.sort` is stable; ties keep
discovery order, as does `mergeSort` with a non-strict comparator). Each
state is paired with its original index. -/
def relabel_sorted (states : List (StateUni α)) : List (ℕ × StateUni α) :=
  (states.enum.filter fun p => decide (p.2.perc ≠ 0)).mergeSort
    fun a b => decide (a.2.mean ≤ b.2.mean)

/-- The relabeling of a single label cell: cells at `0` are untouched by the
nonzero mask (and `relabel_map[0] = 0` anyway); nonzero cells go through the
`relabel_map` array. -/
def relabel_cell (sorted : List (ℕ × StateUni α)) (l : ℕ) : ℕ :=
  if l = 0 then 0 else relabel_map (sorted.map Prod.fst) 0 l

/-- The State Relabeler `relabel_states` of `functions.py`: returns the
relabeled label matrix and the surviving states ordered by mean. -/
def relabel_states (labels : List (List ℕ)) (states : List (StateUni α)) :
    List (List ℕ) × List (StateUni α) :=
  (labels.map (List.map (relabel_cell (relabel_sorted states))),
    (relabel_sorted states).map Prod.snd)

theorem relabel_map_le (os : List ℕ) (r l : ℕ) : relabel_map os r l ≤ r + os.length := by
  induction os generalizing r with
  | nil => simp [relabel_map]
  | cons o rest ih =>
    unfold relabel_map
    split
    · simp
    · have := ih (r + 1)
      simpa [Nat.add_comm, Nat.add_left_comm] using this.trans (by omega)

theorem relabel_map_range' (n s c : ℕ) :
    relabel_map (List.range' s n) s c = if s + 1 ≤ c ∧ c ≤ s + n then c else 0 := by
  induction n generalizing s with
  | zero =>
    simp only [List.range', relabel_map]
    rw [if_neg (by omega)]
  | succ n ih =>
    rw [List.range'_succ]
    unfold relabel_map
    split
    · rename_i h
      rw [if_pos (by omega)]
      omega
    · rename_i h
      rw [ih (s + 1)]
      by_cases hc : s + 2 ≤ c ∧ c ≤ s + 1 + n
      · rw [if_pos hc, if_pos (by omega)]
      · rw [if_neg hc, if_neg (by omega)]

theorem relabel_sorted_mem_perc (states : List (StateUni α)) :
    ∀ p ∈ relabel_sorted states, p.2.perc ≠ 0 := by
  intro p hp
  unfold relabel_sorted at hp
  have hmem := (List.mergeSort_perm _ _).subset hp
  rcases List.mem_filter.mp hmem with ⟨-, hperc⟩
  simpa using hperc

/-- Every state in the list returned by the relabeler has nonzero
relevance: the `perc != 0.0` filter runs before sorting and mapping. -/
theorem relabel_states_mem_perc (labels : List (List ℕ))
    (states : List (StateUni α)) :
    ∀ q ∈ (relabel_states labels states).2, q.perc ≠ 0 := by
  intro q hq
  unfold relabel_states at hq
  rcases List.mem_map.mp hq with ⟨p, hp, rfl⟩
  exact relabel_sorted_mem_perc states p hp

theorem relabel_sorted_pairwise (states : List (StateUni α)) :
    (relabel_sorted states).Pairwise
      (fun a b => decide (a.2.mean ≤ b.2.mean) = true) := by
  unfold relabel_sorted
  exact List.sorted_mergeSort
    (by intro a b c hab hbc; simp only [decide_eq_true_eq] at *; exact le_trans hab hbc)
    (by intro a b; simpa using le_total a.2.mean b.2.mean) _

/-- On a state list that is already an output of the relabeler — every
relevance nonzero, means nondecreasing — the filter-and-sort step is the
identity up to the enumeration of original indices. -/
theorem relabel_sorted_of_output (states : List (StateUni α))
    (hperc : ∀ st ∈ states, st.perc ≠ 0)
    (hsorted : states.Pairwise (fun a b => decide (a.mean ≤ b.mean) = true)) :
    relabel_sorted states = states.enum := by
  unfold relabel_sorted
  have hfilter : states.enum.filter (fun p => decide (p.2.perc ≠ 0)) = states.enum := by
    rw [List.filter_eq_self]
    intro p hp
    have : p.2 ∈ states := by
      have := List.mem_map_of_mem Prod.snd hp
      rwa [List.enum_map_snd] at this
    simpa using hperc p.2 this
  rw [hfilter]
  apply List.mergeSort_of_sorted
  have h := List.pairwise_map
    (f := (Prod.snd : ℕ × StateUni α → StateUni α))
    (R := fun a b => decide (a.mean ≤ b.mean) = true) (l := states.enum)
  rw [List.enum_map_snd] at h
  exact h.mp hsorted

/-- C7: the State Relabeler is idempotent — applying it to its own output
returns that output unchanged, both the label matrix and the state list. -/
theorem relabel_states_idempotent (labels : List (List ℕ))
    (states : List (StateUni α)) :
    relabel_states (relabel_states labels states).1
        (relabel_states labels states).2
      = relabel_states labels states := by
  set sorted := relabel_sorted states with hsorted_def
  set S1 := sorted.map Prod.snd with hS1_def
  have hperc1 : ∀ st ∈ S1, st.perc ≠ 0 := by
    intro st hst
    rcases List.mem_map.mp hst with ⟨p, hp, rfl⟩
    exact relabel_sorted_mem_perc states p hp
  have hpair1 : S1.Pairwise (fun a b => decide (a.mean ≤ b.mean) = true) := by
    apply List.pairwise_map.mpr
    exact relabel_sorted_pairwise states
  have hsorted2 : relabel_sorted S1 = S1.enum :=
    relabel_sorted_of_output S1 hperc1 hpair1
  have hfst2 : (relabel_sorted S1).map Prod.fst = List.range S1.length := by
    rw [hsorted2, List.enum_map_fst]
  have hcell_range : ∀ l : ℕ, relabel_cell sorted l ≤ S1.length := by
    intro l
    unfold relabel_cell
    split
    · omega
    · have := relabel_map_le (sorted.map Prod.fst) 0 l
      simpa [hS1_def] using this
  have hcell2_id : ∀ c : ℕ, c ≤ S1.length → relabel_cell (relabel_sorted S1) c = c := by
    intro c hc
    unfold relabel_cell
    split
    · omega
    · rename_i hc0
      rw [hfst2, List.range_eq_range', relabel_map_range']
      rw [if_pos (by omega)]
  have hcells : ∀ l : ℕ,
      relabel_cell (relabel_sorted S1) (relabel_cell sorted l) = relabel_cell sorted l :=
    fun l => hcell2_id _ (hcell_range l)
  unfold relabel_states
  rw [hsorted2]
  refine Prod.ext ?_ ?_
  · show (labels.map (List.map (relabel_cell sorted))).map
        (List.map (relabel_cell S1.enum)) = labels.map (List.map (relabel_cell sorted))
    rw [List.map_map]
    apply List.map_congr_left
    intro row _
    show (row.map (relabel_cell sorted)).map (relabel_cell S1.enum)
        = row.map (relabel_cell sorted)
    rw [List.map_map]
    apply List.map_congr_left
    intro l _
    show relabel_cell S1.enum (relabel_cell sorted l) = relabel_cell sorted l
    rw [← hsorted2]
    exact hcells l
  · show S1.enum.map Prod.snd = S1
    exact List.enum_map_snd S1

end Relabel

section Search

variable {α : Type} [LinearOrderedField α]

/-- One candidate outcome of `perform_gaussian_fit` (`main.py`): the success
flag, the goodness, and the fitted parameters `popt = (mean, sigma, area)`.
The numerical fit itself is external; the selection logic that consumes the
two candidates is embedded below. -/
structure FitCandidate (α : Type) where
  flag : Bool
  goodness : ℤ
  popt : α × α × α

/-- Step 8 of `gauss_fit_max` (`main.py`): choose between the minima-bounded
and the half-height-bounded candidate. Exactly one success picks that
candidate; two successes pick the one with higher goodness (ties keep the
minima-bounded one); two failures yield `None`. -/
def choose_best_fit (cmin chalf : FitCandidate α) : Option ((α × α × α) × ℤ) :=
  if cmin.flag ∧ ¬ chalf.flag then some (cmin.popt, cmin.goodness)
  else if ¬ cmin.flag ∧ chalf.flag then some (chalf.popt, chalf.goodness)
  else if cmin.flag ∧ chalf.flag then
    if chalf.goodness ≤ cmin.goodness then some (cmin.popt, cmin.goodness)
    else some (chalf.popt, chalf.goodness)
  else none

/-- Modelled from the spec: the construction
`State(popt[0], popt[1], popt[2])` followed by
`build_boundaries(NUMBER_OF_SIGMAS)` lives in `first_classes.py`, which is
not among the sources; the spec's "sigma multiplier" (`NUMBER_OF_SIGMAS = 2`
in `main.py`) scales sigma symmetrically around the mean to produce the
state's bounds. The `peak` field's formula is also in the absent file and is
unused by every claim, so it is left at `0`. -/
def build_state (popt : α × α × α) : StateUni α :=
  { mean := popt.1, sigma := popt.2.1, area := popt.2.2, peak := 0, perc := 0,
    th_inf := (popt.1 - 2 * popt.2.1, 1), th_sup := (popt.1 + 2 * popt.2.1, 1) }

/-- `gauss_fit_max` (`main.py`) with the two numerical fit attempts supplied
as an oracle `cands`: build the histogram state from the selected candidate,
or fail when both candidates failed. -/
def gauss_fit_max (cands : List (List α) → FitCandidate α × FitCandidate α)
    (m : List (List α)) : Option (StateUni α) :=
  match choose_best_fit (cands m).1 (cands m).2 with
  | none => none
  | some (popt, _) => some (build_state popt)

/-- The initial all-zero label matrix of `iterative_search`:
`np.zeros((m_clean.shape[0], int(m_clean.shape[1]/tau_w)))`. -/
def initial_labels (m_clean : List (List α)) (tau : ℕ) : List (List ℕ) :=
  m_clean.map fun _ => List.replicate ((m_clean.headD []).length / tau) 0

/-- The `while True` loop of `iterative_search` (`main.py`): fit on the
current residual, classify against the full original matrix with
`offset = number of accepted states`, append the state with its newly
classified fraction as `perc`, stop on fit failure or on fraction `≤ 0`.
The loop is embedded with explicit fuel; every continued iteration has a
strictly positive classified fraction and therefore strictly decreases the
number of zero label cells, so fuel `total_cells + 1` (as supplied by
`iterative_search`) is never exhausted before a terminating branch. -/
def search_loop (fit : List (List α) → Option (StateUni α))
    (m_orig : List (List α)) (tau : ℕ) :
    ℕ → List (List α) → List (List ℕ) → List (StateUni α) → Bool →
      List (List ℕ) × List (StateUni α) × Bool
  | 0, _, labels, states, ols => (labels, states, ols)
  | fuel + 1, m_copy, labels, states, ols =>
    match fit m_copy with
    | none => (labels, states, ols)
    | some st =>
      let r := find_stable_trj m_orig tau st labels states.length
      let states2 := states ++ [{ st with perc := r.2.2.1 }]
      if r.2.2.1 ≤ 0 then (r.1, states2, r.2.2.2)
      else search_loop fit m_orig tau fuel r.2.1 r.1 states2 r.2.2.2

/-- The Iterative State Search `iterative_search` of `main.py`: run the
fit/classify loop starting from the full matrix and the all-zero label
matrix, then relabel. Returns the relabeled label matrix, the relabeled
state list, and the `one_last_state` flag. -/
def iterative_search (fit : List (List α) → Option (StateUni α))
    (m_clean : List (List α)) (tau : ℕ) :
    List (List ℕ) × List (StateUni α) × Bool :=
  let labels0 := initial_labels m_clean tau
  let r := search_loop fit m_clean tau (total_cells labels0 + 1) m_clean labels0 [] false
  let rl := relabel_states r.1 r.2.1
  (rl.1, rl.2, r.2.2)

/-- Shared C6 argument: when the first fitted state classifies no window
(the mask count over the initial all-zero labels is `0`), the loop's first
iteration computes fraction `0`, stops, and the final relabeling drops the
appended zero-relevance state, so the returned state list is empty. -/
theorem search_zero_count_gives_empty
    (fit : List (List α) → Option (StateUni α)) (m_clean : List (List α))
    (tau : ℕ) (st : StateUni α)
    (hfit : fit m_clean = some st)
    (hcnt : stable_count m_clean tau st (initial_labels m_clean tau) = 0) :
    (iterative_search fit m_clean tau).2.1 = [] := by
  unfold iterative_search search_loop
  rw [hfit]
  have hfrac : (find_stable_trj m_clean tau st (initial_labels m_clean tau)
      (([] : List (StateUni α)).length)).2.2.1 = (0 : α) := by
    unfold find_stable_trj
    simp [hcnt]
  dsimp only
  rw [if_pos (le_of_eq hfrac)]
  unfold relabel_states relabel_sorted
  rw [hfrac]
  simp

/-- The number of zero (unclassified) cells of a label matrix; the measure
that justifies the fuel of `search_loop`. -/
def zero_cells (labels : List (List ℕ)) : ℕ :=
  ((List.range labels.length).map fun i =>
    ((List.range (labels.getD i []).length).map fun j =>
      if label_cell labels i j = 0 then 1 else 0).sum).sum

theorem list_sum_map_add (l : List ℕ) (f g : ℕ → ℕ) :
    (l.map fun x => f x + g x).sum = (l.map f).sum + (l.map g).sum := by
  induction l with
  | nil => simp
  | cons a t ih =>
    simp [ih]
    omega

theorem find_stable_trj_length (m : List (List α)) (tau : ℕ) (st : StateUni α)
    (labels : List (List ℕ)) (offset : ℕ) :
    (find_stable_trj m tau st labels offset).1.length = labels.length := by
  unfold find_stable_trj
  simp

theorem find_stable_trj_row_length (m : List (List α)) (tau : ℕ)
    (st : StateUni α) (labels : List (List ℕ)) (offset : ℕ) (i : ℕ)
    (hi : i < labels.length) :
    ((find_stable_trj m tau st labels offset).1.getD i []).length
      = (labels.getD i []).length := by
  unfold find_stable_trj
  rw [List.getD_eq_getElem?_getD]
  simp only [List.getElem?_map, List.getElem?_range hi, Option.map_some',
    Option.getD_some]
  rw [List.length_map, List.length_range]

/-- Each classifier pass converts exactly `stable_count` zero cells into
nonzero cells and touches nothing else. -/
theorem zero_cells_find_stable (m : List (List α)) (tau : ℕ) (st : StateUni α)
    (labels : List (List ℕ)) (offset : ℕ) :
    zero_cells (find_stable_trj m tau st labels offset).1
        + stable_count m tau st labels
      = zero_cells labels := by
  unfold zero_cells stable_count
  rw [find_stable_trj_length, ← list_sum_map_add]
  apply congrArg List.sum
  apply List.map_congr_left
  intro i hi
  rw [List.mem_range] at hi
  rw [find_stable_trj_row_length m tau st labels offset i hi, ← list_sum_map_add]
  apply congrArg List.sum
  apply List.map_congr_left
  intro j hj
  rw [List.mem_range] at hj
  rw [label_cell_find_stable m tau st labels offset i j hi hj]
  by_cases hm : stable_mask m tau st labels i j = true
  · have h0 : label_cell labels i j = 0 := by
      unfold stable_mask at hm
      simp only [Bool.and_eq_true, decide_eq_true_eq] at hm
      exact hm.1
    simp [hm, h0]
  · simp [hm]

theorem stable_count_pos_of_frac_pos (m : List (List α)) (tau : ℕ)
    (st : StateUni α) (labels : List (List ℕ)) (offset : ℕ)
    (h : ¬ (find_stable_trj m tau st labels offset).2.2.1 ≤ 0) :
    0 < stable_count m tau st labels := by
  by_contra hc
  apply h
  have hcnt : stable_count m tau st labels = 0 := by omega
  unfold find_stable_trj
  simp [hcnt]

/-- Any fuel strictly above the number of zero cells is interchangeable
with its successor: the loop's continued iterations strictly consume zero
cells, so the fuel never runs out before a terminating branch. -/
theorem search_loop_fuel_succ (fit : List (List α) → Option (StateUni α))
    (m_orig : List (List α)) (tau : ℕ) :
    ∀ fuel (m_copy : List (List α)) (labels : List (List ℕ))
      (states : List (StateUni α)) (ols : Bool), zero_cells labels < fuel →
    search_loop fit m_orig tau fuel m_copy labels states ols
      = search_loop fit m_orig tau (fuel + 1) m_copy labels states ols := by
  intro fuel
  induction fuel with
  | zero =>
    intro m_copy labels states ols h
    omega
  | succ fuel ih =>
    intro m_copy labels states ols h
    cases hf : fit m_copy with
    | none => simp only [search_loop, hf]
    | some st =>
      simp only [search_loop, hf]
      by_cases hfrac : (find_stable_trj m_orig tau st labels states.length).2.2.1
          ≤ (0 : α)
      · rw [if_pos hfrac, if_pos hfrac]
      · rw [if_neg hfrac, if_neg hfrac]
        apply ih
        have hpos := stable_count_pos_of_frac_pos m_orig tau st labels
          states.length hfrac
        have hz := zero_cells_find_stable m_orig tau st labels states.length
        omega

theorem search_loop_fuel_ge (fit : List (List α) → Option (StateUni α))
    (m_orig : List (List α)) (tau : ℕ) (m_copy : List (List α))
    (labels : List (List ℕ)) (states : List (StateUni α)) (ols : Bool) :
    ∀ fuel, zero_cells labels < fuel →
    search_loop fit m_orig tau fuel m_copy labels states ols
      = search_loop fit m_orig tau (zero_cells labels + 1) m_copy labels states ols := by
  intro fuel
  induction fuel with
  | zero =>
    intro h
    omega
  | succ fuel ih =>
    intro h
    rcases Nat.lt_or_ge (zero_cells labels) fuel with hlt | hge
    · rw [← search_loop_fuel_succ fit m_orig tau fuel m_copy labels states ols hlt]
      exact ih hlt
    · have heq : fuel = zero_cells labels := by omega
      rw [heq]

theorem map_length_eq_range_getD (l : List (List ℕ)) :
    l.map List.length = (List.range l.length).map fun i => (l.getD i []).length := by
  apply List.ext_getElem
  · rw [List.length_map, List.length_map, List.length_range]
  · intro i h1 h2
    rw [List.length_map] at h1
    rw [List.getElem_map, List.getElem_map, List.getElem_range,
      List.getD_eq_getElem?_getD, List.getElem?_eq_getElem h1, Option.getD_some]

theorem zero_cells_le_total (labels : List (List ℕ)) :
    zero_cells labels ≤ total_cells labels := by
  unfold zero_cells total_cells
  rw [map_length_eq_range_getD]
  apply List.sum_le_sum
  intro i _
  have hb := List.sum_le_card_nsmul
    ((List.range (labels.getD i []).length).map fun j =>
      if label_cell labels i j = 0 then 1 else 0) 1 ?_
  · simpa using hb
  · intro x hx
    rcases List.mem_map.mp hx with ⟨j, -, rfl⟩
    split <;> omega

/-- The fuel chosen by `iterative_search` is immaterial: any fuel above the
total cell count produces the same loop result, so the embedded loop agrees
with the source's unbounded `while True`. -/
theorem iterative_search_fuel_sufficient (fit : List (List α) → Option (StateUni α))
    (m : List (List α)) (tau fuel : ℕ)
    (h : total_cells (initial_labels m tau) < fuel) :
    search_loop fit m tau fuel m (initial_labels m tau) [] false
      = search_loop fit m tau (total_cells (initial_labels m tau) + 1) m
          (initial_labels m tau) [] false := by
  have hz := zero_cells_le_total (initial_labels m tau)
  rw [search_loop_fuel_ge fit m tau m (initial_labels m tau) [] false fuel
    (by omega)]
  rw [search_loop_fuel_ge fit m tau m (initial_labels m tau) [] false
    (total_cells (initial_labels m tau) + 1) (by omega)]

/-- C6 counterexample state: its bounds `[2, 3]` contain no value of the
one-frame signal `[[1]]`, so it classifies nothing. -/
def c6_state : StateUni ℚ := ⟨1, 1, 1, 1, 0, (2, 1), (3, 1)⟩

/-- C6 counterexample: a first fitted state that classifies nothing has its
newly-classified fraction `≤ 0` (here the classified-window count is `0`),
the search stops immediately, and the returned state list is empty — the
state just found is NOT kept in the list returned by the search. -/
theorem iterative_search_drops_unpopulated_state_counterexample :
    stable_count [[(1 : ℚ)]] 1 c6_state (initial_labels [[(1 : ℚ)]] 1) = 0
    ∧ (iterative_search (fun _ => some c6_state) [[(1 : ℚ)]] 1).2.1 = [] :=
  ⟨by decide, search_zero_count_gives_empty (fun _ => some c6_state)
    [[(1 : ℚ)]] 1 c6_state rfl (by decide)⟩

theorem find_stable_trj_frac_zero (m : List (List α)) (tau : ℕ)
    (st : StateUni α) (labels : List (List ℕ)) (offset : ℕ)
    (hcnt : stable_count m tau st labels = 0) :
    (find_stable_trj m tau st labels offset).2.2.1 = (0 : α) := by
  unfold find_stable_trj
  simp [hcnt]

/-- C6 amended: at any iteration of the search loop — any residual signal
`m_copy`, any current label matrix and any previously accepted states — a
fitted state that classifies no window (mask count `0`, so the
newly-classified fraction is `0 ≤ 0`) makes the loop stop immediately,
appending the state just found with relevance `0`; the relabeling that
produces the state list returned by the search (applied by
`iterative_search` to exactly these two loop outputs) keeps only
nonzero-relevance states, so the state just found is NOT in that list. -/
theorem search_loop_zero_fraction_drops_state
    (fit : List (List α) → Option (StateUni α)) (m_orig : List (List α))
    (tau fuel : ℕ) (m_copy : List (List α)) (labels : List (List ℕ))
    (states : List (StateUni α)) (ols : Bool) (st : StateUni α)
    (hfuel : 0 < fuel) (hfit : fit m_copy = some st)
    (hcnt : stable_count m_orig tau st labels = 0) :
    search_loop fit m_orig tau fuel m_copy labels states ols
      = ((find_stable_trj m_orig tau st labels states.length).1,
          states ++ [{ st with perc := 0 }],
          (find_stable_trj m_orig tau st labels states.length).2.2.2)
    ∧ { st with perc := (0 : α) } ∉
        (relabel_states
          (search_loop fit m_orig tau fuel m_copy labels states ols).1
          (search_loop fit m_orig tau fuel m_copy labels states ols).2.1).2 := by
  obtain ⟨f, rfl⟩ : ∃ f, fuel = f + 1 := ⟨fuel - 1, by omega⟩
  have hfrac : (find_stable_trj m_orig tau st labels states.length).2.2.1
      = (0 : α) := find_stable_trj_frac_zero m_orig tau st labels states.length hcnt
  have hstep : search_loop fit m_orig tau (f + 1) m_copy labels states ols
      = ((find_stable_trj m_orig tau st labels states.length).1,
          states ++ [{ st with perc := 0 }],
          (find_stable_trj m_orig tau st labels states.length).2.2.2) := by
    simp only [search_loop, hfit]
    rw [if_pos (le_of_eq hfrac), hfrac]
  refine ⟨hstep, ?_⟩
  rw [hstep]
  intro hmem
  exact relabel_states_mem_perc _ _ _ hmem rfl

/-- A previously accepted state for the C6 witness: it holds the first
window of the signal and has relevance `1/2`. -/
def c6_prior : StateUni ℚ := ⟨0, 1, 1, 1, 1 / 2, (0, 1), (2, 1)⟩

/-- C6 amended witness: a second-iteration stop — one state already
accepted, the first window already labelled `1` — at a concrete input whose
fitted state classifies nothing. -/
theorem search_loop_zero_fraction_drops_state_witness :
    search_loop (fun _ => some c6_state) [[(1 : ℚ), 9]] 1 1 [[(9 : ℚ)]]
        [[1, 0]] [c6_prior] true
      = ((find_stable_trj [[(1 : ℚ), 9]] 1 c6_state [[1, 0]] [c6_prior].length).1,
          [c6_prior] ++ [{ c6_state with perc := 0 }],
          (find_stable_trj [[(1 : ℚ), 9]] 1 c6_state [[1, 0]]
            [c6_prior].length).2.2.2)
    ∧ { c6_state with perc := (0 : ℚ) } ∉
        (relabel_states
          (search_loop (fun _ => some c6_state) [[(1 : ℚ), 9]] 1 1 [[(9 : ℚ)]]
            [[1, 0]] [c6_prior] true).1
          (search_loop (fun _ => some c6_state) [[(1 : ℚ), 9]] 1 1 [[(9 : ℚ)]]
            [[1, 0]] [c6_prior] true).2.1).2 :=
  search_loop_zero_fraction_drops_state (fun _ => some c6_state)
    [[(1 : ℚ), 9]] 1 1 [[(9 : ℚ)]] [[1, 0]] [c6_prior] true c6_state
    (by decide) rfl (by decide)

end Search

section MaxProb

variable {α : Type} [LinearOrderedField α]

/-- `np.median` of a one-dimensional array: sort, take the middle element
(odd length) or the mean of the two middle elements (even length). The
source never applies it to an empty window; the embedding returns `0`
there. -/
def median (l : List α) : α :=
  let s := l.mergeSort fun a b => decide (a ≤ b)
  if l.length % 2 = 1 then s.getD (l.length / 2) 0
  else (s.getD (l.length / 2 - 1) 0 + s.getD (l.length / 2) 0) / 2

/-- `find_max_prob_state` (`functions.py`): one-step correction of a window
label by the window median — decrement when the median falls below the
state's lower threshold, increment when it rises above the upper one. -/
def find_max_prob_state (window : List α) (old_label : ℕ)
    (list_of_states : List (StateUni α)) : ℕ :=
  let median_x := median window
  let st := list_of_states.getD (old_label - 1) default
  if median_x < st.th_inf.1 then old_label - 1
  else if median_x > st.th_sup.1 then old_label + 1
  else old_label

/-- The label matrix produced by `max_prob_assignment` (`functions.py`):
`final_labels` starts as zeros and only the cells with a positive old label
receive `find_max_prob_state` of their window. -/
def max_prob_labels (list_of_states : List (StateUni α))
    (matrix : List (List α)) (labels : List (List ℕ)) (tau : ℕ) :
    List (List ℕ) :=
  (List.range labels.length).map fun i =>
    (List.range (labels.getD i []).length).map fun j =>
      if 0 < label_cell labels i j
      then find_max_prob_state (window_slice matrix tau i j)
        (label_cell labels i j) list_of_states
      else 0

/-- `max_prob_assignment` (`functions.py`): the corrected label matrix
together with the state list carrying relevances recomputed from it. -/
def max_prob_assignment (list_of_states : List (StateUni α))
    (matrix : List (List α)) (labels : List (List ℕ)) (tau : ℕ) :
    List (List ℕ) × List (StateUni α) :=
  let final := max_prob_labels list_of_states matrix labels tau
  (final, list_of_states.enum.map fun p =>
    { p.2 with perc := (count_label final (p.1 + 1) : α) / (total_cells final : α) })

theorem le_median_of_forall_le (l : List α) (c : α) (hne : l ≠ [])
    (h : ∀ x ∈ l, c ≤ x) : c ≤ median l := by
  unfold median
  have hmem : ∀ x ∈ l.mergeSort fun a b => decide (a ≤ b), c ≤ x :=
    fun x hx => h x ((List.mergeSort_perm l _).subset hx)
  have hlen : (l.mergeSort fun a b => decide (a ≤ b)).length = l.length :=
    List.length_mergeSort l
  have hlpos : 0 < l.length := List.length_pos.mpr hne
  split
  · exact hmem _ (getD_mem_of_lt _ _ _ (by omega))
  · have ha := hmem _ (getD_mem_of_lt (l.mergeSort fun a b => decide (a ≤ b))
      (l.length / 2 - 1) 0 (by omega))
    have hb := hmem _ (getD_mem_of_lt (l.mergeSort fun a b => decide (a ≤ b))
      (l.length / 2) 0 (by omega))
    linarith

theorem median_le_of_forall_le (l : List α) (c : α) (hne : l ≠ [])
    (h : ∀ x ∈ l, x ≤ c) : median l ≤ c := by
  unfold median
  have hmem : ∀ x ∈ l.mergeSort fun a b => decide (a ≤ b), x ≤ c :=
    fun x hx => h x ((List.mergeSort_perm l _).subset hx)
  have hlen : (l.mergeSort fun a b => decide (a ≤ b)).length = l.length :=
    List.length_mergeSort l
  have hlpos : 0 < l.length := List.length_pos.mpr hne
  split
  · exact hmem _ (getD_mem_of_lt _ _ _ (by omega))
  · have ha := hmem _ (getD_mem_of_lt (l.mergeSort fun a b => decide (a ≤ b))
      (l.length / 2 - 1) 0 (by omega))
    have hb := hmem _ (getD_mem_of_lt (l.mergeSort fun a b => decide (a ≤ b))
      (l.length / 2) 0 (by omega))
    linarith

omit [LinearOrderedField α] in
theorem window_slice_subset_row (m : List (List α)) (tau i j : ℕ) :
    ∀ x ∈ window_slice m tau i j, x ∈ m.getD i [] := by
  intro x hx
  exact List.mem_of_mem_drop (List.mem_of_mem_take hx)

theorem label_cell_max_prob (states : List (StateUni α))
    (matrix : List (List α)) (labels : List (List ℕ)) (tau : ℕ) (i j : ℕ)
    (hi : i < labels.length) (hj : j < (labels.getD i []).length) :
    label_cell (max_prob_labels states matrix labels tau) i j
      = if 0 < label_cell labels i j
        then find_max_prob_state (window_slice matrix tau i j)
          (label_cell labels i j) states
        else 0 := by
  unfold max_prob_labels label_cell
  rw [List.getD_eq_getElem?_getD labels i] at hj
  simp only [List.getD_eq_getElem?_getD, List.getElem?_map, List.getElem?_range hi,
    Option.map_some', Option.getD_some, List.getElem?_range hj]

/-- C10: under the boundary-threshold invariant (the first state's lower
threshold is below every datum and the last state's upper threshold above
every datum) and with nonzero input labels in `[1, n]`, the Max-Probability
Reassigner returns label `0` exactly for the windows whose input label was
`0`, and a label in `[1, n]` for every other window: the single-step
decrement/increment can never unclassify a window or overflow past `n`. -/
theorem max_prob_assignment_label_range (states : List (StateUni α))
    (matrix : List (List α)) (labels : List (List ℕ)) (tau : ℕ)
    (htau : 0 < tau)
    (hlab : ∀ i < labels.length, ∀ j < (labels.getD i []).length,
      label_cell labels i j ≤ states.length)
    (hlen : ∀ i < labels.length,
      tau * (labels.getD i []).length ≤ (matrix.getD i []).length)
    (hlow : ∀ x ∈ matrix.flatten, (states.getD 0 default).th_inf.1 ≤ x)
    (hhigh : ∀ x ∈ matrix.flatten,
      x ≤ (states.getD (states.length - 1) default).th_sup.1)
    (i j : ℕ) :
    (label_cell (max_prob_assignment states matrix labels tau).1 i j = 0
      ↔ label_cell labels i j = 0)
    ∧ (label_cell labels i j ≠ 0 →
      1 ≤ label_cell (max_prob_assignment states matrix labels tau).1 i j
      ∧ label_cell (max_prob_assignment states matrix labels tau).1 i j
          ≤ states.length) := by
  have hfst : (max_prob_assignment states matrix labels tau).1
      = max_prob_labels states matrix labels tau := rfl
  rw [hfst]
  by_cases hrange : i < labels.length ∧ j < (labels.getD i []).length
  case neg =>
    have hold := label_cell_out_of_range labels i j hrange
    have hnew : label_cell (max_prob_labels states matrix labels tau) i j = 0 := by
      apply label_cell_out_of_range
      intro ⟨hi2, hj2⟩
      apply hrange
      unfold max_prob_labels at hi2 hj2
      rw [List.length_map, List.length_range] at hi2
      refine ⟨hi2, ?_⟩
      rw [List.getD_eq_getElem?_getD, List.getElem?_map, List.getElem?_range hi2,
        Option.map_some', Option.getD_some, List.length_map, List.length_range] at hj2
      exact hj2
    rw [hnew, hold]
    exact ⟨Iff.rfl, fun hc => absurd rfl hc⟩
  case pos =>
    obtain ⟨hi, hj⟩ := hrange
    rw [label_cell_max_prob states matrix labels tau i j hi hj]
    by_cases h0 : label_cell labels i j = 0
    · rw [if_neg (by omega)]
      exact ⟨by simp [h0], fun hc => absurd h0 hc⟩
    · rw [if_pos (by omega)]
      set old := label_cell labels i j with hold_def
      have hoofn : 1 ≤ old ∧ old ≤ states.length := ⟨by omega, hlab i hi j hj⟩
      have hwne : window_slice matrix tau i j ≠ [] := by
        unfold window_slice
        have hrow : j * tau < (matrix.getD i []).length := by
          have h1 := hlen i hi
          have h2 : j + 1 ≤ (labels.getD i []).length := hj
          have h3 : (j + 1) * tau ≤ (labels.getD i []).length * tau :=
            Nat.mul_le_mul_right tau h2
          have h4 : j * tau < (j + 1) * tau := by
            have := htau
            nlinarith
          have h5 : (labels.getD i []).length * tau = tau * (labels.getD i []).length :=
            Nat.mul_comm _ _
          omega
        intro hcon
        have h1 : (((matrix.getD i []).drop (j * tau)).take tau).length = 0 := by
          rw [hcon]; rfl
        rw [List.length_take, List.length_drop] at h1
        omega
      have hwmem : ∀ x ∈ window_slice matrix tau i j, x ∈ matrix.flatten := by
        intro x hx
        have hxr := window_slice_subset_row matrix tau i j x hx
        have hmrow : matrix.getD i [] ∈ matrix := by
          rcases Nat.lt_or_ge i matrix.length with him | him
          · exact getD_mem_of_lt matrix i [] him
          · rw [List.getD_eq_default _ _ him] at hxr
            exact absurd hxr (List.not_mem_nil x)
        exact List.mem_flatten.mpr ⟨matrix.getD i [], hmrow, hxr⟩
      have hfm : 1 ≤ find_max_prob_state (window_slice matrix tau i j) old states
          ∧ find_max_prob_state (window_slice matrix tau i j) old states
              ≤ states.length := by
        unfold find_max_prob_state
        dsimp only
        by_cases hlt : median (window_slice matrix tau i j)
            < (states.getD (old - 1) default).th_inf.1
        · rw [if_pos hlt]
          have hold2 : 2 ≤ old := by
            by_contra hcon
            have holdeq : old - 1 = 0 := by omega
            rw [holdeq] at hlt
            have hmed : (states.getD 0 default).th_inf.1
                ≤ median (window_slice matrix tau i j) := by
              apply le_median_of_forall_le _ _ hwne
              intro x hx
              exact hlow x (hwmem x hx)
            exact absurd hmed (not_le.mpr hlt)
          omega
        · rw [if_neg hlt]
          by_cases hgt : median (window_slice matrix tau i j)
              > (states.getD (old - 1) default).th_sup.1
          · rw [if_pos hgt]
            have holdn : old < states.length := by
              by_contra hcon
              have holdeq : old - 1 = states.length - 1 := by omega
              rw [holdeq] at hgt
              have hmed : median (window_slice matrix tau i j)
                  ≤ (states.getD (states.length - 1) default).th_sup.1 := by
                apply median_le_of_forall_le _ _ hwne
                intro x hx
                exact hhigh x (hwmem x hx)
              exact absurd hmed (not_le.mpr hgt)
            omega
          · rw [if_neg hgt]
            omega
      refine ⟨⟨fun hzero => ?_, fun h => absurd h h0⟩, fun _ => hfm⟩
      omega

/-- C10 witness: a single-state list whose bounds contain all the data, a
one-entity matrix of two one-frame windows both labelled `1`. -/
theorem max_prob_assignment_label_range_witness :
    (label_cell (max_prob_assignment [⟨5, 1, 1, 1, 1, (0, 0), (10, 0)⟩]
        [[(3 : ℚ), 4]] [[1, 1]] 1).1 0 0 = 0 ↔ label_cell [[1, 1]] 0 0 = 0)
    ∧ (label_cell [[1, 1]] 0 0 ≠ 0 →
      1 ≤ label_cell (max_prob_assignment [⟨5, 1, 1, 1, 1, (0, 0), (10, 0)⟩]
        [[(3 : ℚ), 4]] [[1, 1]] 1).1 0 0
      ∧ label_cell (max_prob_assignment [⟨5, 1, 1, 1, 1, (0, 0), (10, 0)⟩]
        [[(3 : ℚ), 4]] [[1, 1]] 1).1 0 0
        ≤ ([⟨5, 1, 1, 1, 1, (0, 0), (10, 0)⟩] : List (StateUni ℚ)).length) :=
  max_prob_assignment_label_range [⟨5, 1, 1, 1, 1, (0, 0), (10, 0)⟩]
    [[(3 : ℚ), 4]] [[1, 1]] 1 (by decide) (by decide) (by decide)
    (by decide) (by decide) 0 0

end MaxProb

section Timeseries

variable {α : Type} [LinearOrderedField α]

/-- `moving_average` (`functions.py`) on one row:
`np.convolve(x, np.ones(w)/w, mode="valid")` — the mean of each length-`w`
contiguous slice, producing `n - w + 1` values. -/
def moving_average_1d (row : List α) (w : ℕ) : List α :=
  (List.range (row.length + 1 - w)).map fun i => ((row.drop i).take w).sum / (w : α)

/-- `moving_average` on a 2-D array: the filter applied along each row. -/
def moving_average (m : List (List α)) (w : ℕ) : List (List α) :=
  m.map (moving_average_1d · w)

/-- `np.min` over the whole matrix (`sig_min` of `preparing_the_data`). -/
def matrix_min (m : List (List α)) : α := m.flatten.min?.getD 0

/-- `np.max` over the whole matrix (`sig_max` of `preparing_the_data`). -/
def matrix_max (m : List (List α)) : α := m.flatten.max?.getD 0

/-- The per-configuration analysis `timeseries_analysis` of `main.py`:
smooth the raw matrix, run the iterative search, and either return the
`(1, 1.0)` no-classification result when the search found no states, or
run the merge step (`set_final_states`, supplied as the collaborator `sfs`
because its shared-area computation is numerical quadrature) and report the
state count — plus one when an unclassified residual remains — and the
unclassified fraction. The numerical fit attempts are supplied by the
`cands` oracle consumed by `gauss_fit_max`. -/
def timeseries_analysis
    (cands : List (List α) → FitCandidate α × FitCandidate α)
    (sfs : List (StateUni α) → List (List ℕ) → α × α →
      List (StateUni α) × List (List ℕ))
    (m_raw : List (List α)) (tau t_smooth : ℕ) : ℕ × α :=
  let m_clean := moving_average m_raw t_smooth
  let r := iterative_search (gauss_fit_max cands) m_clean tau
  if r.2.1.length = 0 then (1, 1)
  else
    let p := sfs r.2.1 r.1 (matrix_min m_clean, matrix_max m_clean)
    let f0 := 1 - (p.1.map StateUni.perc).sum
    if r.2.2 then (p.1.length + 1, f0) else (p.1.length, f0)

theorem iterative_search_fit_none (fit : List (List α) → Option (StateUni α))
    (m : List (List α)) (tau : ℕ) (h : fit m = none) :
    (iterative_search fit m tau).2.1 = [] := by
  unfold iterative_search search_loop
  rw [h]
  dsimp only
  unfold relabel_states relabel_sorted
  simp

/-- C9: when both fit candidates fail on the very first iteration, the
iterative search finds zero states and the per-configuration analysis
returns the well-formed result `(1, 1.0)` — one notional unclassified state
with relevance fraction `1.0` — instead of raising. -/
theorem timeseries_analysis_no_states
    (cands : List (List α) → FitCandidate α × FitCandidate α)
    (sfs : List (StateUni α) → List (List ℕ) → α × α →
      List (StateUni α) × List (List ℕ))
    (m_raw : List (List α)) (tau t_smooth : ℕ)
    (h1 : ((cands (moving_average m_raw t_smooth)).1).flag = false)
    (h2 : ((cands (moving_average m_raw t_smooth)).2).flag = false) :
    timeseries_analysis cands sfs m_raw tau t_smooth = (1, (1 : α)) := by
  have hfit : gauss_fit_max cands (moving_average m_raw t_smooth) = none := by
    unfold gauss_fit_max choose_best_fit
    rw [h1, h2]
    simp
  have hsearch := iterative_search_fit_none (gauss_fit_max cands)
    (moving_average m_raw t_smooth) tau hfit
  unfold timeseries_analysis
  dsimp only
  rw [hsearch]
  simp

/-- C9 witness: a concrete run over `ℚ` whose two fit candidates both carry
a failure flag. -/
theorem timeseries_analysis_no_states_witness :
    timeseries_analysis
      (fun _ => (⟨false, 5, (0, 0, 0)⟩, ⟨false, 5, (0, 0, 0)⟩))
      (fun s l _ => (s, l)) [[(1 : ℚ), 2]] 1 1 = (1, (1 : ℚ)) :=
  timeseries_analysis_no_states
    (fun _ => (⟨false, 5, (0, 0, 0)⟩, ⟨false, 5, (0, 0, 0)⟩))
    (fun s l _ => (s, l)) [[(1 : ℚ), 2]] 1 1 rfl rfl

end Timeseries
